import Mathlib

/-!
Verification of the simulation core of the Snake game (`src/main.rs`):
shallow embedding of the body-chain movement pipeline, direction resolution,
toroidal wrap, apple placement, score keeping and high-score persistence,
together with proofs of the specified properties.
-/

namespace Snake

/-- Movement directions of the snake, from `enum Direction` in `main.rs`
(`Right` is the `#[default]` variant). -/
inductive Direction
  | Up
  | Down
  | Left
  | Right
  deriving DecidableEq, Repr, Fintype

/-- Grid cell size in world units: `let size = 50.0;` in `setup`. -/
def size : Int := 50

/-- The world-space step of one tick in a given direction, from the
`match direction` at the top of `move_head`. -/
def offset : Direction → Int × Int
  | .Up => (0, size)
  | .Down => (0, -size)
  | .Left => (-size, 0)
  | .Right => (size, 0)

/-- Toroidal wrap of a single world coordinate, from `move_head`:
`new_coordinates = (new_head_position / size + 6.0 + 13.0) % 13.0` followed by
`new_head_position = (new_coordinates - 6.0) * size`, applied per axis.
Every input the code wraps is a multiple of `size` in a small range, where the
source's `f32` arithmetic is exact; Rust's `%` keeps the dividend's sign,
which on integers is `Int.tmod`. -/
def wrapCoord (x : Int) : Int := ((x / size + 6 + 13).tmod 13 - 6) * size

/-- Componentwise wrap of a world position (`move_head` wraps a `Vec2`). -/
def wrapPos (p : Int × Int) : Int × Int := (wrapCoord p.1, wrapCoord p.2)

/-- The 180 degree reverse of a direction. -/
def Direction.opposite : Direction → Direction
  | .Up => .Down
  | .Down => .Up
  | .Left => .Right
  | .Right => .Left

/-- `change_direction`: build the per-frame impulse vector from the four
just-pressed key groups (`pressed_direction`), then, when the last committed
direction is horizontal, only an uncancelled vertical impulse selects a new
direction, when it is vertical only an uncancelled horizontal impulse does;
otherwise the previously buffered direction is kept. -/
def changeDirection (up down left right : Bool) (current last : Direction) :
    Direction :=
  let y : Int := (if up then 1 else 0) + (if down then -1 else 0)
  let x : Int := (if left then -1 else 0) + (if right then 1 else 0)
  match last with
  | .Left | .Right =>
    if y = 1 then .Up else if y = -1 then .Down else current
  | .Up | .Down =>
    if x = -1 then .Left else if x = 1 then .Right else current

/-- The simulation state: the body chain as the list of segment positions from
Head to Tail (the source links each segment to the one ahead of it through
`NextBodyPart`; the list here is ordered head first), the buffered `Direction`
component, the `LastDirection` component, and the apple position. -/
structure GameState where
  chain : List (Int × Int)
  current : Direction
  last : Direction
  apple : Int × Int
  deriving DecidableEq, Repr

/-- The 13 x 13 candidate grid built at the top of `spawn_apple`
(`for x in -6..=6 { for y in -6..=6 { ... } }`, scaled by `size`). -/
def gridPoints : List (Int × Int) :=
  (List.range 13).flatMap fun i =>
    (List.range 13).map fun j => (((i : Int) - 6) * size, ((j : Int) - 6) * size)

/-- The free cells left in `spawn_apple` after
`spawn_points.retain(|p| p != &position)` for every occupied position. -/
def spawnPoints (occupied : List (Int × Int)) : List (Int × Int) :=
  gridPoints.filter fun p => decide (p ∉ occupied)

/-- One movement tick of the pipeline scheduled in `main`: `move_head`
(a new head at the wrapped position, the previous head reclassified as body,
`last_direction` set to the consumed direction), then `eat_apple` (the new
head position equals the apple position), then either the eaten path
(`remove_tail` skipped; `grow` despawns the apple and spawns a new one on a
free cell, the random pick being the `appleChoice` argument, rejected unless
it is free) or the no-eat path (`remove_tail`: the tail segment is despawned
and its `next` becomes the tail).  `none` models an `expect` abort. -/
def tickGame (s : GameState) (appleChoice : Int × Int) : Option GameState :=
  match s.chain with
  | [] => none
  | h :: rest =>
    let newHead := wrapPos (h + offset s.current)
    let grown := newHead :: h :: rest
    if newHead = s.apple then
      if appleChoice ∈ spawnPoints grown then
        some ⟨grown, s.current, s.current, appleChoice⟩
      else none
    else
      some ⟨grown.dropLast, s.current, s.current, s.apple⟩

/-- Per-frame drive of the system: a frame applies `change_direction` with the
keys just pressed during it; a movement tick runs the movement pipeline. -/
inductive GameEvent
  | frame (up down left right : Bool)
  | tick (appleChoice : Int × Int)
  deriving DecidableEq, Repr

/-- Apply one event to the state. -/
def stepGame (s : GameState) : GameEvent → Option GameState
  | .frame u d l r =>
    some { s with current := changeDirection u d l r s.current s.last }
  | .tick c => tickGame s c

/-- Run a sequence of frames and ticks. -/
def runGame : GameState → List GameEvent → Option GameState
  | s, [] => some s
  | s, e :: evs =>
    match stepGame s e with
    | none => none
    | some s' => runGame s' evs

/-- The initial three-segment snake spawned in `setup`: head at the origin,
body one cell to its left, tail two cells to its left. -/
def initChain : List (Int × Int) := [(0, 0), (-size, 0), (-2 * size, 0)]

/-- The initial state: `Direction` and `LastDirection` both default to
`Right`; the initial apple is spawned on a free cell chosen at random
(`apple0`). -/
def initState (apple0 : Int × Int) : GameState :=
  ⟨initChain, .Right, .Right, apple0⟩

/-- The thirteen legal world coordinates of one axis of the grid. -/
def cellCoords : List Int := (List.range 13).map fun i => ((i : Int) - 6) * size

/-- The three per-axis offsets one tick can add to a coordinate. -/
def offs : List Int := [-size, 0, size]

/-- A position whose two coordinates are legal grid coordinates. -/
def isCellPos (p : Int × Int) : Prop := p.1 ∈ cellCoords ∧ p.2 ∈ cellCoords

instance isCellPos_decidable (p : Int × Int) : Decidable (isCellPos p) :=
  inferInstanceAs (Decidable (_ ∈ _ ∧ _ ∈ _))

/-- Inductive invariant of the simulation: the buffered direction is never the
reverse of the last committed one, the chain has at least three segments, all
segments sit on grid cells, and while the chain still has exactly three
segments the head is the wrapped step from the body and the cells are
pairwise distinct where not implied. -/
def ChainInv (s : GameState) : Prop :=
  s.current ≠ s.last.opposite ∧
  3 ≤ s.chain.length ∧
  (∀ p ∈ s.chain, isCellPos p) ∧
  (∀ h b t, s.chain = [h, b, t] →
    h = wrapPos (b + offset s.last) ∧ h ≠ t ∧ b ≠ t)

/-- `update_score`: on an eaten apple the score is incremented; when the high
score is strictly below the new score it is incremented by one and
`save_high_score` is called.  The state is `(score, highScore, saveCalls)`;
the third component counts the `save_high_score` calls.  `u32` arithmetic
wraps at `2 ^ 32 = 4294967296` (release-mode semantics); the rendered label
text is not modelled. -/
def updateScore : Nat × Nat × Nat → Nat × Nat × Nat
  | (score, highScore, saves) =>
    let newScore := (score + 1) % 4294967296
    if highScore < newScore then (newScore, (highScore + 1) % 4294967296, saves + 1)
    else (newScore, highScore, saves)

/-- A session of `n` eat events applied to a score state. -/
def runEats : Nat → Nat × Nat × Nat → Nat × Nat × Nat
  | 0, st => st
  | n + 1, st => runEats n (updateScore st)

/-- The bytes `bincode::encode_to_vec(high_score, config::standard())` writes
for a `u32`, modelled from the documented standard format of the external
`bincode` crate (variable-width integer encoding, little endian): values below
251 are a single byte, a 251 marker prefixes a 16-bit value, a 252 marker a
32-bit value. -/
def encodeU32 (n : Nat) : List Nat :=
  if n < 251 then [n]
  else if n < 65536 then [251, n % 256, n / 256 % 256]
  else [252, n % 256, n / 256 % 256, n / 65536 % 256, n / 16777216 % 256]

/-- `bincode::decode_from_slice` for a `u32` under `config::standard()`,
modelled from the same documented format: the decoded value and the number of
bytes consumed; trailing bytes are ignored; markers 253 and 254 introduce
integers wider than a `u32` and fail. -/
def decodeU32 : List Nat → Option (Nat × Nat)
  | [] => none
  | b :: rest =>
    if b < 251 then some (b, 1)
    else if b = 251 then
      match rest with
      | b0 :: b1 :: _ => some (b0 + 256 * b1, 3)
      | _ => none
    else if b = 252 then
      match rest with
      | b0 :: b1 :: b2 :: b3 :: _ =>
        some (b0 + 256 * b1 + 65536 * b2 + 16777216 * b3, 5)
      | _ => none
    else none

/-- `save_high_score` writes exactly the encoded bytes to the save file
(directory creation and I/O success are abstracted away; on success the file
content afterwards is this byte list). -/
def save_high_score (n : Nat) : List Nat := encodeU32 n

/-- What the file system hands `load_high_score`: `File::open` fails with
`ErrorKind::NotFound`, fails with another error kind, `read_to_end` fails, or
the whole file content is read successfully. -/
inductive ReadResult
  | notFound
  | openError
  | readError
  | content (bytes : List Nat)
  deriving DecidableEq, Repr

/-- How a call to `load_high_score` ends: a high-score value, a propagated
`io::Error`, or the `expect` abort on a decode failure. -/
inductive LoadOutcome
  | ok (n : Nat)
  | ioError
  | panicked
  deriving DecidableEq, Repr

/-- `load_high_score`: a `NotFound` open error yields `Ok(HighScore(0))`; any
other open error, and any read error, is returned as `Err`; otherwise the file
content is decoded, and a decode failure aborts through `expect`. -/
def load_high_score : ReadResult → LoadOutcome
  | .notFound => .ok 0
  | .openError => .ioError
  | .readError => .ioError
  | .content b =>
    match decodeU32 b with
    | some (v, _) => .ok v
    | none => .panicked

/-- The event list of the C1 counterexample: the apple starts on `(50, 0)`,
two eat ticks grow the chain to five segments (respawn choices `(100, 0)` and
`(300, 300)`, both free when picked), then up, left and down ticks loop the
head back onto a body cell. -/
def cexEvents : List GameEvent :=
  [.tick (2 * size, 0), .tick (6 * size, 6 * size),
   .frame true false false false, .tick (0, 0),
   .frame false false true false, .tick (0, 0),
   .frame false true false false, .tick (0, 0)]

/-! ### Arithmetic facts about the wrap, decided over the finite grid -/

theorem wrapCoord_id : ∀ x ∈ cellCoords, wrapCoord x = x := by decide

theorem wrapCoord_step_mem :
    ∀ x ∈ cellCoords, ∀ v ∈ offs, wrapCoord (x + v) ∈ cellCoords := by decide

theorem wrapCoord_step_eq_iff :
    ∀ x ∈ cellCoords, ∀ v ∈ offs, (wrapCoord (x + v) = x ↔ v = 0) := by decide

theorem wrapCoord_step2_eq_iff :
    ∀ x ∈ cellCoords, ∀ u ∈ offs, ∀ v ∈ offs,
      (wrapCoord (wrapCoord (x + u) + v) = x ↔ u + v = 0) := by decide

theorem offset_fst_mem (d : Direction) : (offset d).1 ∈ offs := by
  cases d <;> decide

theorem offset_snd_mem (d : Direction) : (offset d).2 ∈ offs := by
  cases d <;> decide

theorem offset_ne_zero (d : Direction) :
    ¬((offset d).1 = 0 ∧ (offset d).2 = 0) := by
  cases d <;> decide

theorem offset_sum_zero_iff (d e : Direction) :
    ((offset d).1 + (offset e).1 = 0 ∧ (offset d).2 + (offset e).2 = 0) ↔
      e = d.opposite := by
  cases d <;> cases e <;> decide

theorem ne_self_opposite (d : Direction) : d ≠ d.opposite := by
  cases d <;> decide

theorem changeDirection_ne_opposite :
    ∀ (u d l r : Bool) (cur lst : Direction), cur ≠ lst.opposite →
      changeDirection u d l r cur lst ≠ lst.opposite := by decide

theorem wrapPos_step_mem (p : Int × Int) (hp : isCellPos p) (d : Direction) :
    isCellPos (wrapPos (p + offset d)) :=
  ⟨wrapCoord_step_mem p.1 hp.1 (offset d).1 (offset_fst_mem d),
   wrapCoord_step_mem p.2 hp.2 (offset d).2 (offset_snd_mem d)⟩

theorem wrapPos_step_ne (p : Int × Int) (hp : isCellPos p) (d : Direction) :
    wrapPos (p + offset d) ≠ p := by
  intro h
  have h1 : wrapCoord (p.1 + (offset d).1) = p.1 := congrArg Prod.fst h
  have h2 : wrapCoord (p.2 + (offset d).2) = p.2 := congrArg Prod.snd h
  exact offset_ne_zero d
    ⟨(wrapCoord_step_eq_iff p.1 hp.1 (offset d).1 (offset_fst_mem d)).1 h1,
     (wrapCoord_step_eq_iff p.2 hp.2 (offset d).2 (offset_snd_mem d)).1 h2⟩

theorem wrapPos_step2_ne (p : Int × Int) (hp : isCellPos p) (d e : Direction)
    (hde : e ≠ d.opposite) :
    wrapPos (wrapPos (p + offset d) + offset e) ≠ p := by
  intro h
  have h1 : wrapCoord (wrapCoord (p.1 + (offset d).1) + (offset e).1) = p.1 :=
    congrArg Prod.fst h
  have h2 : wrapCoord (wrapCoord (p.2 + (offset d).2) + (offset e).2) = p.2 :=
    congrArg Prod.snd h
  exact hde ((offset_sum_zero_iff d e).1
    ⟨(wrapCoord_step2_eq_iff p.1 hp.1 (offset d).1 (offset_fst_mem d)
        (offset e).1 (offset_fst_mem e)).1 h1,
     (wrapCoord_step2_eq_iff p.2 hp.2 (offset d).2 (offset_snd_mem d)
        (offset e).2 (offset_snd_mem e)).1 h2⟩)

/-! ### The chain invariant is established by `setup` and preserved by every
frame and tick -/

theorem chainInv_init (apple0 : Int × Int) : ChainInv (initState apple0) := by
  have h4 : ∀ h b t : Int × Int, initChain = [h, b, t] →
      h = wrapPos (b + offset Direction.Right) ∧ h ≠ t ∧ b ≠ t := by
    intro h b t heq
    simp only [initChain] at heq
    injection heq with e1 heq
    injection heq with e2 heq
    injection heq with e3 _
    subst e1; subst e2; subst e3
    exact ⟨by decide, by decide, by decide⟩
  refine ⟨?_, ?_, ?_, h4⟩
  · show Direction.Right ≠ Direction.Right.opposite
    decide
  · show 3 ≤ initChain.length
    decide
  · show ∀ p ∈ initChain, isCellPos p
    decide

theorem chainInv_step (s s' : GameState) (e : GameEvent)
    (hinv : ChainInv s) (hstep : stepGame s e = some s') : ChainInv s' := by
  obtain ⟨hdir, hlen, hcells, h3⟩ := hinv
  cases e with
  | frame u d l r =>
    simp only [stepGame, Option.some.injEq] at hstep
    subst hstep
    exact ⟨changeDirection_ne_opposite u d l r s.current s.last hdir,
      hlen, hcells, h3⟩
  | tick c =>
    cases hchain : s.chain with
    | nil => rw [hchain] at hlen; simp at hlen
    | cons h rest =>
      rw [hchain] at hlen
      simp only [stepGame, tickGame, hchain] at hstep
      by_cases heat : wrapPos (h + offset s.current) = s.apple
      · rw [if_pos heat] at hstep
        by_cases hmem : c ∈ spawnPoints (wrapPos (h + offset s.current) :: h :: rest)
        · rw [if_pos hmem] at hstep
          simp only [Option.some.injEq] at hstep
          subst hstep
          refine ⟨ne_self_opposite s.current, ?_, ?_, ?_⟩
          · simp only [List.length_cons] at hlen ⊢; omega
          · intro p hp
            simp only [List.mem_cons] at hp
            rcases hp with rfl | hp
            · exact wrapPos_step_mem h (hcells h (by rw [hchain]; exact List.mem_cons_self h rest)) s.current
            · exact hcells p (by rw [hchain]; exact List.mem_cons.2 hp)
          · intro h₂ b₂ t₂ heq
            have := congrArg List.length heq
            simp only [List.length_cons, List.length_nil] at this hlen
            omega
        · rw [if_neg hmem] at hstep
          exact absurd hstep (by simp)
      · rw [if_neg heat] at hstep
        simp only [Option.some.injEq] at hstep
        subst hstep
        refine ⟨ne_self_opposite s.current, ?_, ?_, ?_⟩
        · simp only [List.length_dropLast, List.length_cons] at hlen ⊢; omega
        · intro p hp
          have hp' := (List.dropLast_sublist _).subset hp
          simp only [List.mem_cons] at hp'
          rcases hp' with rfl | hp'
          · exact wrapPos_step_mem h (hcells h (by rw [hchain]; exact List.mem_cons_self h rest)) s.current
          · exact hcells p (by rw [hchain]; exact List.mem_cons.2 hp')
        · intro h₂ b₂ t₂ heq
          have hlen3 := congrArg List.length heq
          simp only [List.length_dropLast, List.length_cons, List.length_nil] at hlen3
          have hrest2 : rest.length = 2 := by omega
          obtain ⟨b, t, rfl⟩ := List.length_eq_two.1 hrest2
          simp only [List.dropLast, List.cons.injEq, and_true] at heq
          obtain ⟨rfl, rfl, rfl⟩ := heq
          obtain ⟨hrel, hht, hbt⟩ := h3 h b t hchain
          have hbc : isCellPos b :=
            hcells b (by rw [hchain]; simp)
          refine ⟨rfl, ?_, ?_⟩
          · rw [hrel]
            exact wrapPos_step2_ne b hbc s.last s.current hdir
          · rw [hrel]
            exact wrapPos_step_ne b hbc s.last

theorem chainInv_run :
    ∀ (evs : List GameEvent) (s0 s : GameState), ChainInv s0 →
      runGame s0 evs = some s → ChainInv s := by
  intro evs
  induction evs with
  | nil =>
    intro s0 s h0 hrun
    simp only [runGame, Option.some.injEq] at hrun
    exact hrun ▸ h0
  | cons e evs ih =>
    intro s0 s h0 hrun
    rw [runGame] at hrun
    cases hstep : stepGame s0 e with
    | none => rw [hstep] at hrun; simp at hrun
    | some s1 =>
      rw [hstep] at hrun
      exact ih s1 s (chainInv_step s0 s1 e h0 hstep) hrun

/-! ### Claim theorems -/

/-- C1 (amended): after every sequence of frames and ticks from the initial
three-segment snake during which no apple has been eaten - equivalently,
while the chain still has exactly its three initial segments - no two
segments of the snake occupy the same grid cell.  (The unrestricted claim is
false once the chain has grown: see the counterexample.) -/
theorem advance_nodup_until_growth (apple0 : Int × Int) (evs : List GameEvent)
    (s : GameState) (hrun : runGame (initState apple0) evs = some s)
    (hlen : s.chain.length = 3) : s.chain.Nodup := by
  obtain ⟨hdir, -, hcells, h3⟩ :=
    chainInv_run evs (initState apple0) s (chainInv_init apple0) hrun
  obtain ⟨h, b, t, hchain⟩ := List.length_eq_three.1 hlen
  obtain ⟨hrel, hht, hbt⟩ := h3 h b t hchain
  have hbc : isCellPos b := hcells b (by rw [hchain]; simp)
  have hhb : h ≠ b := by
    rw [hrel]; exact wrapPos_step_ne b hbc s.last
  rw [hchain]
  simp only [List.nodup_cons, List.mem_cons, List.mem_singleton,
    List.not_mem_nil, or_false, not_or, List.nodup_nil, and_true]
  exact ⟨⟨hhb, hht⟩, hbt, fun f => f⟩

/-- Witness: one non-eat tick from the initial snake keeps three pairwise
distinct segments. -/
theorem advance_nodup_until_growth_witness :
    (⟨[((50 : Int), (0 : Int)), (0, 0), (-50, 0)], .Right, .Right,
      (100, 100)⟩ : GameState).chain.Nodup :=
  advance_nodup_until_growth (100, 100) [.tick (0, 0)]
    ⟨[(50, 0), (0, 0), (-50, 0)], .Right, .Right, (100, 100)⟩
    (by decide) (by decide)

/-- C1 is refuted as stated: a concrete realisable sequence of ticks and
direction inputs (two eats growing the chain to five segments, then a U-turn)
after which two segments of the snake occupy the same grid cell, because the
code never checks for self-collision. -/
theorem advance_overlap_counterexample :
    (runGame (initState (size, 0)) cexEvents).map
      (fun s => decide s.chain.Nodup) = some false := by decide

/-- C2: for every sequence of per-frame inputs and ticks the resolved
direction is never the exact opposite of the last committed direction;
moreover `change_direction`'s policy is: a horizontal `last` listens only to
the vertical impulse (exactly one of up/down just pressed), a vertical `last`
only to the horizontal impulse, and with no qualifying impulse or cancelling
impulses the previous direction is retained. -/
theorem direction_never_opposite :
    (∀ (apple0 : Int × Int) (evs : List GameEvent) (s : GameState),
        runGame (initState apple0) evs = some s →
          s.current ≠ s.last.opposite) ∧
    (∀ (u d l r : Bool) (cur lst : Direction), (lst = .Left ∨ lst = .Right) →
        changeDirection u d l r cur lst =
          if u && !d then .Up else if d && !u then .Down else cur) ∧
    (∀ (u d l r : Bool) (cur lst : Direction), (lst = .Up ∨ lst = .Down) →
        changeDirection u d l r cur lst =
          if l && !r then .Left else if r && !l then .Right else cur) := by
  refine ⟨?_, by decide, by decide⟩
  intro apple0 evs s hrun
  exact (chainInv_run evs (initState apple0) s (chainInv_init apple0) hrun).1

/-- Witness: the empty run keeps `Right` non-opposed to `Right`, and a pressed
up key with `last = Right` resolves to `Up`. -/
theorem direction_never_opposite_witness :
    (initState (100, 100)).current ≠ (initState (100, 100)).last.opposite ∧
    changeDirection true false false false .Right .Right =
      (if true && !false then .Up else if false && !true then .Down
       else .Right) :=
  ⟨direction_never_opposite.1 (100, 100) [] (initState (100, 100)) rfl,
   direction_never_opposite.2.1 true false false false .Right .Right
     (Or.inr rfl)⟩

/-- C3: after every sequence of frames and ticks from the initial snake the
chain has at least three segments, and a single tick grows the chain by
exactly one segment when the new head lands on the apple (the tail removal is
skipped) and leaves the length unchanged otherwise (one head added, one tail
removed). -/
theorem chain_length_invariant :
    (∀ (apple0 : Int × Int) (evs : List GameEvent) (s : GameState),
        runGame (initState apple0) evs = some s → 3 ≤ s.chain.length) ∧
    (∀ (s s' : GameState) (c h : Int × Int) (rest : List (Int × Int)),
        s.chain = h :: rest → tickGame s c = some s' →
        (wrapPos (h + offset s.current) = s.apple →
            s'.chain.length = s.chain.length + 1) ∧
        (wrapPos (h + offset s.current) ≠ s.apple →
            s'.chain.length = s.chain.length)) := by
  constructor
  · intro apple0 evs s hrun
    exact (chainInv_run evs (initState apple0) s (chainInv_init apple0)
      hrun).2.1
  · intro s s' c h rest hchain htick
    simp only [tickGame, hchain] at htick
    by_cases heat : wrapPos (h + offset s.current) = s.apple
    · rw [if_pos heat] at htick
      by_cases hmem : c ∈ spawnPoints (wrapPos (h + offset s.current) :: h :: rest)
      · rw [if_pos hmem] at htick
        simp only [Option.some.injEq] at htick
        subst htick
        refine ⟨fun _ => ?_, fun hne => absurd heat hne⟩
        rw [hchain]
        simp [List.length_cons]
      · rw [if_neg hmem] at htick
        exact absurd htick (by simp)
    · rw [if_neg heat] at htick
      simp only [Option.some.injEq] at htick
      subst htick
      refine ⟨fun heq => absurd heq heat, fun _ => ?_⟩
      rw [hchain]
      simp [List.length_dropLast, List.length_cons]

/-- Witness: the initial chain has three segments, and a concrete non-eat
tick keeps the length at three. -/
theorem chain_length_invariant_witness :
    3 ≤ (initState (100, 100)).chain.length ∧
    (⟨[((50 : Int), (0 : Int)), (0, 0), (-50, 0)], .Right, .Right,
        (100, 100)⟩ : GameState).chain.length =
      (initState (100, 100)).chain.length :=
  ⟨chain_length_invariant.1 (100, 100) [] (initState (100, 100)) rfl,
   (chain_length_invariant.2 (initState (100, 100))
      ⟨[(50, 0), (0, 0), (-50, 0)], .Right, .Right, (100, 100)⟩ (0, 0)
      (0, 0) [(-size, 0), (-2 * size, 0)] rfl (by decide)).2 (by decide)⟩

/-- C4: on every eat event the score increases by exactly one; the high score
is then incremented by exactly one - the authoritative increment-by-1
behaviour - with exactly one `save_high_score` call, exactly when the new
score exceeds it, and both the high score and the save count are untouched
otherwise; in particular from `Score = 0`, `HighScore = 0` one eat gives
`Score = 1`, `HighScore = 1` and one save call.  (The `u32` increment cannot
overflow in a session, hence the no-wrap hypothesis.) -/
theorem update_score_on_eat :
    (∀ score high saves : Nat, score + 1 < 4294967296 →
        (updateScore (score, high, saves)).1 = score + 1 ∧
        (high < score + 1 →
            updateScore (score, high, saves) =
              (score + 1, high + 1, saves + 1)) ∧
        (¬high < score + 1 →
            updateScore (score, high, saves) = (score + 1, high, saves))) ∧
    updateScore (0, 0, 0) = (1, 1, 1) := by
  refine ⟨?_, by decide⟩
  intro score high saves hlt
  have hs : (score + 1) % 4294967296 = score + 1 := Nat.mod_eq_of_lt hlt
  by_cases hhigh : high < score + 1
  · have hh : (high + 1) % 4294967296 = high + 1 :=
      Nat.mod_eq_of_lt (by omega)
    simp [updateScore, hs, hh, hhigh]
  · simp [updateScore, hs, hhigh]

/-- Witness: one eat from score 0, high score 0 yields score 1, high score 1
and one save call. -/
theorem update_score_on_eat_witness :
    updateScore (0, 0, 0) = (0 + 1, 0 + 1, 0 + 1) :=
  (update_score_on_eat.1 0 0 0 (by decide)).2.1 (by decide)

/-- C5: saving `HighScore(N)` with the fixed binary encoding and loading the
resulting file content yields exactly `HighScore(N)`, for every N in
{0, 1, 4294967295}. -/
theorem high_score_roundtrip :
    load_high_score (.content (save_high_score 0)) = .ok 0 ∧
    load_high_score (.content (save_high_score 1)) = .ok 1 ∧
    load_high_score (.content (save_high_score 4294967295)) =
      .ok 4294967295 := by decide

/-- C6 is refuted as literally stated: a present save file whose single byte
is 0 decodes successfully, so `load_high_score` returns `HighScore(0)`
although the file is not absent. -/
theorem load_zero_from_existing_file :
    load_high_score (.content [0]) = .ok 0 ∧
    ReadResult.content [0] ≠ ReadResult.notFound := by decide

/-- C6 (amended): `load_high_score` returns `HighScore(0)` when the save file
is absent - and also when a present file's content decodes to 0; a
non-`NotFound` open error or a read error is propagated as an error, a decode
failure aborts, and no failure is ever silently swallowed into a default
value: every returned 0 comes from absence or from file content decoding
to 0. -/
theorem load_high_score_taxonomy :
    load_high_score .notFound = .ok 0 ∧
    load_high_score .openError = .ioError ∧
    load_high_score .readError = .ioError ∧
    (∀ b : List Nat, load_high_score (.content b) =
        ((decodeU32 b).elim .panicked fun p => .ok p.1)) ∧
    (∀ r : ReadResult, load_high_score r = .ok 0 →
        r = .notFound ∨
          ∃ b, r = .content b ∧ (decodeU32 b).map Prod.fst = some 0) := by
  refine ⟨rfl, rfl, rfl, ?_, ?_⟩
  · intro b
    cases hd : decodeU32 b with
    | none => simp [load_high_score, hd]
    | some p => obtain ⟨v, k⟩ := p; simp [load_high_score, hd]
  · intro r hr
    cases r with
    | notFound => exact Or.inl rfl
    | openError => exact absurd hr (by simp [load_high_score])
    | readError => exact absurd hr (by simp [load_high_score])
    | content b =>
      refine Or.inr ⟨b, rfl, ?_⟩
      cases hd : decodeU32 b with
      | none => simp [load_high_score, hd] at hr
      | some p =>
        obtain ⟨v, k⟩ := p
        simp only [load_high_score, hd, LoadOutcome.ok.injEq] at hr
        simp [hd, hr]

/-- Witness: a present file containing the byte 0 is a non-absent source of a
returned 0, as the amended disjunction states. -/
theorem load_high_score_taxonomy_witness :
    ReadResult.content [0] = ReadResult.notFound ∨
      ∃ b, ReadResult.content [0] = ReadResult.content b ∧
        (decodeU32 b).map Prod.fst = some 0 :=
  load_high_score_taxonomy.2.2.2.2 (.content [0]) (by decide)

/-- C7: from the initial snake at `(0, 0)` moving `Right` on the 13 x 13
torus with cell size 50 (the apple placed off the travelled row), one tick
puts the head at `(50, 0)`, and after six further `Right` ticks without
eating the head's x coordinate has wrapped to `-300` instead of `350`. -/
theorem torus_wrap_scenario :
    (runGame (initState (0, 2 * size)) [.tick (0, 0)]).map
        (fun s => s.chain.head?) = some (some (size, 0)) ∧
    (runGame (initState (0, 2 * size))
          (List.replicate 7 (.tick (0, 0)))).map
        (fun s => s.chain.head?) = some (some (-6 * size, 0)) := by decide

/-- C8: the wrap used by `move_head` is idempotent on every position it can
receive (a grid coordinate moved by one tick offset), and restricted to the
grid's coordinate range it is a bijection. -/
theorem wrap_idempotent_bijection :
    (∀ x ∈ cellCoords, ∀ v ∈ offs,
        wrapCoord (wrapCoord (x + v)) = wrapCoord (x + v)) ∧
    Set.BijOn wrapCoord {x : Int | x ∈ cellCoords}
      {x : Int | x ∈ cellCoords} := by
  constructor
  · decide
  · have hid : ∀ x ∈ ({x : Int | x ∈ cellCoords} : Set Int),
        wrapCoord x = x := fun x hx => wrapCoord_id x hx
    refine ⟨fun x hx => ?_, fun a ha b hb hab => ?_, fun y hy => ?_⟩
    · rw [hid x hx]; exact hx
    · rwa [hid a ha, hid b hb] at hab
    · exact ⟨y, hy, hid y hy⟩

/-- Witness: the one receivable out-of-range coordinate 350 wraps
idempotently. -/
theorem wrap_idempotent_bijection_witness :
    wrapCoord (wrapCoord (300 + 50)) = wrapCoord (300 + 50) :=
  wrap_idempotent_bijection.1 300 (by decide) 50 (by decide)

/-- C9: whatever the random shuffle, an apple the placer returns (the head of
the shuffled free-cell list) lies on the 13 x 13 grid and on no occupied
cell, and the placer fails (the `expect` on `first()` aborts) precisely when
every grid cell is occupied. -/
theorem spawn_apple_free_cell (occupied shuffled : List (Int × Int))
    (hperm : shuffled.Perm (spawnPoints occupied)) :
    (∀ p, shuffled.head? = some p → p ∈ gridPoints ∧ p ∉ occupied) ∧
    (shuffled.head? = none ↔ ∀ q ∈ gridPoints, q ∈ occupied) := by
  constructor
  · intro p hp
    have hmem : p ∈ shuffled := by
      cases shuffled with
      | nil => simp at hp
      | cons a l =>
        simp only [List.head?, Option.some.injEq] at hp
        rw [← hp]
        exact List.mem_cons_self a l
    have hsp : p ∈ spawnPoints occupied := hperm.mem_iff.1 hmem
    simp only [spawnPoints, List.mem_filter, decide_eq_true_eq] at hsp
    exact hsp
  · have hnil_iff : shuffled = [] ↔ spawnPoints occupied = [] := by
      constructor
      · intro hn
        have := hperm.length_eq
        rw [hn] at this
        exact List.eq_nil_of_length_eq_zero this.symm
      · intro hn
        have := hperm.length_eq
        rw [hn] at this
        exact List.eq_nil_of_length_eq_zero this
    constructor
    · intro hnone q hq
      have hnil : shuffled = [] := by
        cases shuffled with
        | nil => rfl
        | cons a l => simp [List.head?] at hnone
      by_contra hq'
      have : q ∈ spawnPoints occupied := by
        simp only [spawnPoints, List.mem_filter, decide_eq_true_eq]
        exact ⟨hq, hq'⟩
      rw [hnil_iff.1 hnil] at this
      simp at this
    · intro hall
      have hsp : spawnPoints occupied = [] := by
        rw [List.eq_nil_iff_forall_not_mem]
        intro q hq
        simp only [spawnPoints, List.mem_filter, decide_eq_true_eq] at hq
        exact hq.2 (hall q hq.1)
      rw [hnil_iff.2 hsp]
      rfl

/-- Witness: with nothing occupied the placer returns the first grid cell,
which is on the grid and unoccupied. -/
theorem spawn_apple_free_cell_witness :
    ((-300 : Int), (-300 : Int)) ∈ gridPoints ∧
      ((-300 : Int), (-300 : Int)) ∉ ([] : List (Int × Int)) :=
  (spawn_apple_free_cell [] (spawnPoints []) (List.Perm.refl _)).1
    (-300, -300) (by decide)

/-- One eat preserves `score ≤ highScore` together with the `u32` range
bounds. -/
theorem updateScore_preserves (score high saves : Nat)
    (h : score ≤ high ∧ score < 4294967296 ∧ high < 4294967296) :
    (updateScore (score, high, saves)).1 ≤
        (updateScore (score, high, saves)).2.1 ∧
      (updateScore (score, high, saves)).1 < 4294967296 ∧
      (updateScore (score, high, saves)).2.1 < 4294967296 := by
  obtain ⟨hsh, hs, hh⟩ := h
  simp only [updateScore]
  split <;> simp <;> omega

/-- The invariant of `updateScore_preserves` holds after any number of
eats. -/
theorem runEats_inv (n : Nat) :
    ∀ st : Nat × Nat × Nat,
      st.1 ≤ st.2.1 ∧ st.1 < 4294967296 ∧ st.2.1 < 4294967296 →
      (runEats n st).1 ≤ (runEats n st).2.1 ∧
        (runEats n st).1 < 4294967296 ∧ (runEats n st).2.1 < 4294967296 := by
  induction n with
  | zero => intro st h; simpa [runEats] using h
  | succ n ih =>
    intro st h
    obtain ⟨s1, s2, s3⟩ := st
    simp only [runEats]
    exact ih (updateScore (s1, s2, s3)) (updateScore_preserves s1 s2 s3 h)

/-- C10: at every point of a session - score starting at 0, the loaded high
score arbitrary, each eat applying `update_score` - the high score is at
least the score, so the increment-by-1 update never leaves the high score
below the score. -/
theorem high_score_ge_score (n high0 : Nat) (h0 : high0 < 4294967296) :
    (runEats n (0, high0, 0)).1 ≤ (runEats n (0, high0, 0)).2.1 :=
  (runEats_inv n (0, high0, 0) ⟨Nat.zero_le high0, by omega, h0⟩).1

/-- Witness: two eats from a fresh session with loaded high score 0. -/
theorem high_score_ge_score_witness :
    (runEats 2 (0, 0, 0)).1 ≤ (runEats 2 (0, 0, 0)).2.1 :=
  high_score_ge_score 2 0 (by omega)

end Snake
